import Mathlib

/-!
Shallow embedding of the core of the `load-balancer` repository
(backend registry, circuit breaker, selection policies, retry executor,
session manager, request forwarder), together with theorems settling the
frozen claims about its natural-language specification.

Conventions of the embedding:
* Go `time.Time` / `time.Duration` values are modelled as `Int`
  nanoseconds on a monotonic clock; `time.Since(t)` at instant `now`
  is `now - t`.
* Go `int` counters are modelled as `Int` (no overflow is relevant to
  any claim).
* Mutation is modelled by explicit state passing: a Go method that
  mutates its receiver becomes a Lean function returning the new state.
* Concurrency is modelled sequentially: each Go critical section
  (the code under one mutex acquisition) is one atomic Lean step.
-/

namespace LoadBalancer

/-! ## Circuit breaker (`internal/circuitbreaker`) -/

/-- Breaker state (`circuitbreaker.State`): `Closed`, `Open`, `HalfOpen`. -/
inductive BreakerState where
  | closed
  | open
  | halfOpen
deriving DecidableEq, Repr

/-- `circuitbreaker.Config`. Durations in nanoseconds. -/
structure CBConfig where
  failureThreshold : Int
  resetTimeout : Int
  halfOpenLimit : Int
deriving DecidableEq, Repr

/-- `circuitbreaker.CircuitBreaker` runtime state.
`lastFailureTime` is an instant on the monotonic clock. -/
structure CB where
  config : CBConfig
  state : BreakerState
  failureCount : Int
  successCount : Int
  lastFailureTime : Int
deriving DecidableEq, Repr

/-- `circuitbreaker.New`: starts `Closed` with zero counters
(Go zero values for the numeric fields). -/
def CB.new (config : CBConfig) : CB :=
  { config := config
    state := .closed
    failureCount := 0
    successCount := 0
    lastFailureTime := 0 }

/-- `CircuitBreaker.AllowRequest` evaluated at instant `now`:
returns the admission decision and the (possibly updated) breaker.
In `Open`, when `time.Since(lastFailureTime) > ResetTimeout` the breaker
flips to `HalfOpen` and admits; in `HalfOpen` it admits while
`successCount < HalfOpenLimit`. -/
def CB.allowRequest (cb : CB) (now : Int) : Bool × CB :=
  match cb.state with
  | .closed => (true, cb)
  | .open =>
    if now - cb.lastFailureTime > cb.config.resetTimeout then
      (true, { cb with state := .halfOpen })
    else
      (false, cb)
  | .halfOpen => (decide (cb.successCount < cb.config.halfOpenLimit), cb)

/-- `CircuitBreaker.RecordSuccess`. -/
def CB.recordSuccess (cb : CB) : CB :=
  match cb.state with
  | .closed => { cb with failureCount := 0 }
  | .halfOpen =>
    let cb := { cb with successCount := cb.successCount + 1 }
    if cb.successCount ≥ cb.config.halfOpenLimit then
      { cb with state := .closed, failureCount := 0, successCount := 0 }
    else
      cb
  | .open => cb

/-- `CircuitBreaker.RecordFailure` at instant `now`. -/
def CB.recordFailure (cb : CB) (now : Int) : CB :=
  let cb := { cb with failureCount := cb.failureCount + 1, lastFailureTime := now }
  match cb.state with
  | .closed =>
    if cb.failureCount ≥ cb.config.failureThreshold then
      { cb with state := .open }
    else
      cb
  | .halfOpen => { cb with state := .open, successCount := 0 }
  | .open => cb

/-- One externally observable breaker operation, with the instant at
which the time-reading operations run. -/
inductive CBOp where
  | allow (now : Int)
  | recordSuccess
  | recordFailure (now : Int)
deriving DecidableEq, Repr

/-- Apply one operation to a breaker (keeping only the state for
`allow`). -/
def CB.step (cb : CB) : CBOp → CB
  | .allow now => (cb.allowRequest now).2
  | .recordSuccess => cb.recordSuccess
  | .recordFailure now => cb.recordFailure now

/-- Run a trace of breaker operations from a given breaker. -/
def CB.run (cb : CB) (ops : List CBOp) : CB :=
  ops.foldl CB.step cb

/-! ## Backend record (`internal/backend`) -/

/-- `backend.Backend`. The parsed upstream URL is `Option String`
(`none` models the nil `*url.URL` that `url.Parse` yields on error,
since `backend.New` discards the parse error). -/
structure Backend where
  id : String
  url : Option String
  weight : Int
  IsHealthy : Bool
  CurrentConns : Int
  circuitBreaker : CB
deriving DecidableEq, Repr

/-- `backend.New`. `parse` stands for the external `url.Parse`
(`none` = parse error, in which case the stored URL is nil); the parse
error itself is discarded (`parsedURL, _ := url.Parse(urlStr)`), and the
function unconditionally returns a backend that is healthy, has zero
in-flight connections, and owns a freshly `Closed` breaker with the
hard-coded config (threshold 5, reset 30s, half-open limit 3). -/
def Backend.new (parse : String → Option String) (id urlStr : String) (weight : Int) : Backend :=
  { id := id
    url := parse urlStr
    weight := weight
    IsHealthy := true
    CurrentConns := 0
    circuitBreaker := CB.new
      { failureThreshold := 5
        resetTimeout := 30 * 1000000000
        halfOpenLimit := 3 } }

/-- `Backend.IsAvailable` at instant `now`: healthy and admitted by the
breaker. (The breaker-state update `AllowRequest` can make in its `Open`
case is dropped here, as callers of the predicate in the claims only
evaluate it on `Closed` breakers, where `AllowRequest` is pure.) -/
def Backend.isAvailable (b : Backend) (now : Int) : Bool :=
  b.IsHealthy && (b.circuitBreaker.allowRequest now).1

/-! ## Balancer errors and round-robin (`internal/balancer`, round-robin file) -/

/-- The sentinel errors of `internal/balancer`. -/
inductive BalancerError where
  | noBackends
  | backendNotFound
  | noHealthyBackends
deriving DecidableEq, Repr

/-- `balancer.roundRobin`: insertion-ordered `keys`, a `backends` map
(modelled as an association list with the same keys), and the cursor
`current`. -/
structure RoundRobin where
  backends : List (String × Backend)
  current : Nat
  keys : List String
deriving Repr

/-- `roundRobin.Next`: when the registry is non-empty, return
`backends[keys[current]]` and advance the cursor modulo `len(keys)`.
The looked-up backend is an `Option` (`none` models the nil pointer a
missing map key would yield); no health or breaker check is made. -/
def RoundRobin.next (rb : RoundRobin) :
    Except BalancerError (Option Backend × RoundRobin) :=
  if rb.backends.length = 0 then
    .error .noBackends
  else
    let b := rb.backends.lookup (rb.keys.getD rb.current "")
    .ok (b, { rb with current := (rb.current + 1) % rb.keys.length })

/-- `roundRobin.AddBackend`: store under `id` and append `id` to `keys`.
(Go map assignment overwrites; in well-formed states `id` is fresh.) -/
def RoundRobin.addBackend (rb : RoundRobin) (id : String) (b : Backend) : RoundRobin :=
  { rb with backends := rb.backends ++ [(id, b)], keys := rb.keys ++ [id] }

/-- The empty round-robin balancer (`newRoundRobin`). -/
def RoundRobin.empty : RoundRobin :=
  { backends := [], current := 0, keys := [] }

/-! ## Smooth weighted round-robin (`internal/balancer/weighted_round_robin.go`) -/

/-- `balancer.weightedRoundRobin` state: parallel `keys`, `weights` and
`currentWeights` arrays. (The `backends` map is represented through the
availability predicate passed to `next`, which stands for
`wrr.backends[b].IsAvailable()`.) -/
structure WRR where
  keys : List String
  weights : List Int
  currentWeights : List Int
deriving DecidableEq, Repr

/-- The selection scan of `weightedRoundRobin.Next`
(`for i, b := range wrr.keys`): for each available key at index `i`,
`currentWeights[i] += weights[i]`, `totalWeight += weights[i]`, and the
running maximum is updated when
`selectedIdx == -1 || currentWeights[i] > maxWeight`.
Returns (new currentWeights, totalWeight, selected (index, maxWeight)),
with `none` for `selectedIdx == -1`. -/
def WRR.scanGo (avail : String → Bool) (weights : List Int) :
    List String → Nat → List Int → Int → Option (Nat × Int) →
    List Int × Int × Option (Nat × Int)
  | [], _, cw, total, sel => (cw, total, sel)
  | k :: ks, i, cw, total, sel =>
    if avail k then
      let w := weights.getD i 0
      let cw' := cw.set i (cw.getD i 0 + w)
      let cwi := cw'.getD i 0
      let sel' :=
        match sel with
        | none => some (i, cwi)
        | some (j, maxW) => if cwi > maxW then some (i, cwi) else some (j, maxW)
      WRR.scanGo avail weights ks (i + 1) cw' (total + w) sel'
    else
      WRR.scanGo avail weights ks (i + 1) cw total sel

/-- `weightedRoundRobin.Next` with `avail` standing for
`wrr.backends[b].IsAvailable()`: scan all keys accumulating current
weights and the total weight of available backends, pick the first
maximum, subtract the total from its current weight, and return its key.
Errors are `ErrNoBackends` on an empty registry and
`ErrNoHealthyBackends` when nothing was available. -/
def WRR.next (avail : String → Bool) (wrr : WRR) :
    Except BalancerError (String × WRR) :=
  if wrr.keys.length = 0 then
    .error .noBackends
  else
    match WRR.scanGo avail wrr.weights wrr.keys 0 wrr.currentWeights 0 none with
    | (_, _, none) => .error .noHealthyBackends
    | (cw, total, some (selIdx, _)) =>
      .ok (wrr.keys.getD selIdx "",
        { wrr with currentWeights := cw.set selIdx (cw.getD selIdx 0 - total) })

/-- Run `n` consecutive `WRR.next` calls, collecting the selected keys
in order (stopping on the first error). -/
def WRR.run (avail : String → Bool) (wrr : WRR) : Nat → List String
  | 0 => []
  | n + 1 =>
    match WRR.next avail wrr with
    | .error _ => []
    | .ok (k, wrr') => k :: WRR.run avail wrr' n

/-! ## Retry executor (`internal/retry/retry.go`) and the proxy's
attempt function (`internal/proxy/proxy.go`, `forwardRequest`) -/

/-- Go error values relevant to the retry/forward path, with the wrap
structure `errors.As` traverses. `retryable` is the `*RetryableError`
wrapper built by `retry.NewRetryableError`; `transport` is an error
from `p.client.Do` (a `*url.Error` chain containing no
`*RetryableError`); `generic` is a bare `errors.New` value;
`backendUnavailable` and `backendError` are the two sentinel
`proxyError` values of `internal/proxy`. -/
inductive GoError where
  | retryable (inner : GoError)
  | transport (msg : String)
  | generic (msg : String)
  | backendUnavailable
  | backendError
deriving DecidableEq, Repr

/-- `errors.As(err, &retryableErr)` for `*RetryableError`: succeeds iff
some layer of the wrap chain is a `*RetryableError`. Only the
`retryable` constructor wraps further errors, so this is a single
top-level test. -/
def isRetryableError : GoError → Bool
  | .retryable _ => true
  | _ => false

/-- The loop body of `retry.Do`, instrumented with the number of calls
made to `fn`. `fn i` is the outcome of the `i`-th call (`none` = Go
`nil` error); `fuel` is the number of remaining loop iterations
(`i <= config.MaxRetries`); `last` is the error variable `err` carried
across iterations. The surrounding context is modelled as never
cancelled, so the two `ctx.Done()` selects never fire and each sleep
completes. -/
def retryLoop (fn : Nat → Option GoError) :
    Nat → Nat → Option GoError → Option GoError × Nat
  | _, 0, last => (last, 0)
  | i, fuel + 1, _ =>
    match fn i with
    | none => (none, 1)
    | some e =>
      if isRetryableError e then
        let r := retryLoop fn (i + 1) fuel (some e)
        (r.1, r.2 + 1)
      else
        (some e, 1)

/-- `retry.Do` (result component): run up to `MaxRetries+1` attempts
from a nil `err`; a negative `MaxRetries` runs no attempt and returns
the initial nil `err`. -/
def retryDo (maxRetries : Int) (fn : Nat → Option GoError) : Option GoError :=
  (retryLoop fn 0 (maxRetries + 1).toNat none).1

/-- Number of calls `retry.Do` makes to `fn` (ghost instrumentation of
the same loop). -/
def retryCalls (maxRetries : Int) (fn : Nat → Option GoError) : Nat :=
  (retryLoop fn 0 (maxRetries + 1).toNat none).2

/-- Observable outcome of one upstream attempt inside
`Proxy.forwardRequest`: either `p.client.Do` fails with a transport
error, or it yields a response with the given status code. -/
inductive AttemptResult where
  | transportErr
  | status (code : Nat)
deriving DecidableEq, Repr

/-- The error value the attempt closure in `Proxy.forwardRequest`
returns to `retry.Do`: the raw `client.Do` error on transport failure,
`errors.New("backend returned error status code")` when the status is
`>= 500`, and `nil` otherwise. None of these is wrapped with
`retry.NewRetryableError`. -/
def attemptError : AttemptResult → Option GoError
  | .transportErr => some (.transport "client.Do error")
  | .status code => if code ≥ 500 then some (.generic "backend returned error status code") else none

/-! ## Retry backoff arithmetic (`retry.Do`, interval computation)

The Go code computes intervals in `float64`; the embedding uses exact
rationals (ℚ), which preserves the algebraic structure of the
computation (multiply, clamp, add jitter) that the backoff claims are
about. `u k ∈ [0,1]` models the `rand.Float64()` draw before the
`k`-th sleep. -/

/-- `retry.Config` numeric fields, over ℚ (durations in nanoseconds). -/
structure RetryConfig where
  initialInterval : ℚ
  maxInterval : ℚ
  multiplier : ℚ
  randomization : ℚ
deriving DecidableEq, Repr

/-- One pass of the interval update in `retry.Do`'s loop:
`interval *= Multiplier`, clamp at `MaxInterval`, then
`interval += rand.Float64() * (interval * Randomization)`. The result
is both the duration slept and the carry into the next iteration. -/
def nextInterval (cfg : RetryConfig) (prev u : ℚ) : ℚ :=
  let grown := prev * cfg.multiplier
  let clamped := if grown > cfg.maxInterval then cfg.maxInterval else grown
  clamped + u * (clamped * cfg.randomization)

/-- The interval variable of `retry.Do` after `k` backoffs:
`intervalSeq cfg u 0 = InitialInterval`, and `intervalSeq cfg u k` for
`k ≥ 1` is the duration of the `k`-th backoff sleep (the sleep after
the `k`-th failed attempt), with jitter draws `u 0, u 1, …`. -/
def intervalSeq (cfg : RetryConfig) (u : Nat → ℚ) : Nat → ℚ
  | 0 => cfg.initialInterval
  | k + 1 => nextInterval cfg (intervalSeq cfg u k) (u k)

/-- The spec's backoff base for the `k`-th sleep (1-indexed):
`b_k = min(maxInterval, initialInterval · multiplier^(k−1))`. -/
def specBackoffBase (cfg : RetryConfig) (k : Nat) : ℚ :=
  min cfg.maxInterval (cfg.initialInterval * cfg.multiplier ^ (k - 1))

/-- The backoff base the code actually produces for the `k`-th sleep:
`min(maxInterval, initialInterval · multiplier^k)` (the interval is
multiplied before the first sleep, so the exponent is `k`, not `k−1`). -/
def codeBackoffBase (cfg : RetryConfig) (k : Nat) : ℚ :=
  min cfg.maxInterval (cfg.initialInterval * cfg.multiplier ^ k)

/-! ## Session manager (`internal/session/session.go`) -/

/-- `session.Session`: pinned backend and absolute expiry instant. -/
structure Session where
  backendID : String
  expiresAt : Int
deriving DecidableEq, Repr

/-- The session-manager configuration fields used by the store
operations. -/
structure SessionConfig where
  enabled : Bool
  ttl : Int
  maxSessions : Int
deriving DecidableEq, Repr

/-- The session store: the Go map `sessions`, modelled as an
association list with pairwise-distinct keys in well-formed states. -/
abbrev SessionStore := List (String × Session)

/-- The accumulator loop of `Manager.evictOldestSession`: carry
`(oldestKey, oldestTime)` (initially `("", zero time)`), updating when
`oldestKey == "" || session.ExpiresAt.Before(oldestTime)`. -/
def evictScan (store : SessionStore) : String × Int :=
  store.foldl
    (fun acc e =>
      if acc.1 = "" ∨ e.2.expiresAt < acc.2 then (e.1, e.2.expiresAt) else acc)
    ("", 0)

/-- `Manager.evictOldestSession`: delete the entry found by the scan
(a no-op when the scan found nothing, i.e. the store was empty). -/
def evictOldestSession (store : SessionStore) : SessionStore :=
  let oldest := evictScan store
  if oldest.1 ≠ "" then store.eraseP (fun e => e.1 = oldest.1) else store

/-- Go map assignment `m.sessions[sessionKey] = &Session{…}`: replace
the entry when the key is present, otherwise add it. -/
def storeSet (store : SessionStore) (k : String) (v : Session) : SessionStore :=
  if (store.lookup k).isSome then
    store.map (fun e => if e.1 = k then (k, v) else e)
  else
    store ++ [(k, v)]

/-- The store mutation of `Manager.SetBackendID` once the session key
has been resolved (cookie generation and header writing are I/O around
this critical section): bail out when disabled or the backend id or key
is empty; evict one entry when `len(m.sessions) >= m.config.MaxSessions`;
then write the entry with `ExpiresAt = time.Now().Add(m.config.TTL)`. -/
def setBackendID (cfg : SessionConfig) (store : SessionStore)
    (sessionKey backendID : String) (now : Int) : SessionStore :=
  if ¬cfg.enabled ∨ backendID = "" then store
  else if sessionKey = "" then store
  else
    let store' :=
      if (store.length : Int) ≥ cfg.maxSessions then evictOldestSession store
      else store
    storeSet store' sessionKey { backendID := backendID, expiresAt := now + cfg.ttl }

/-! ## Metrics and the forwarder pipeline (`internal/metrics`,
`internal/proxy/proxy.go`) -/

/-- The metric counters touched on the request path
(`internal/metrics.Metrics`); per-backend tables are total maps. -/
structure Metrics where
  totalRequests : Int
  failedRequests : Int
  backendRequests : String → Int
  backendFailures : String → Int

/-- `metrics.New`: all counters zero. -/
def Metrics.new : Metrics :=
  { totalRequests := 0
    failedRequests := 0
    backendRequests := fun _ => 0
    backendFailures := fun _ => 0 }

/-- Result of one `Proxy.ServeHTTP` run: the status written to the
client, the metrics, and the selected backend's breaker. -/
structure ServeOutcome where
  clientStatus : Nat
  metrics : Metrics
  breaker : CB

/-- `Proxy.ServeHTTP` on a non-`/metrics` request with no session pin,
followed by `Proxy.forwardRequest` (active-connection gauge movements
are balanced and elided; the request build step succeeds):
increment `total_requests`; on a balancer error increment
`failed_requests` and answer 503; otherwise increment
`backend_requests[id]`, run the attempt closure under `retry.Do`; on
error record a breaker failure, increment `backend_failures[id]` and
map the error through the `switch err` over the sentinel values
(`ErrBackendUnavailable` → 503, `ErrBackendError` → 502, default →
500); on success record a breaker success and relay the upstream
status of the last (successful) attempt. -/
def serveHTTP (maxRetries : Int) (outcomes : Nat → AttemptResult)
    (next : Except BalancerError String) (cb : CB) (m : Metrics)
    (now : Int) : ServeOutcome :=
  let m := { m with totalRequests := m.totalRequests + 1 }
  match next with
  | .error _ =>
    { clientStatus := 503
      metrics := { m with failedRequests := m.failedRequests + 1 }
      breaker := cb }
  | .ok bid =>
    let m := { m with backendRequests :=
      fun b => if b = bid then m.backendRequests b + 1 else m.backendRequests b }
    let fn := fun i => attemptError (outcomes i)
    match retryDo maxRetries fn with
    | some e =>
      { clientStatus :=
          match e with
          | .backendUnavailable => 503
          | .backendError => 502
          | _ => 500
        metrics := { m with backendFailures :=
          fun b => if b = bid then m.backendFailures b + 1 else m.backendFailures b }
        breaker := cb.recordFailure now }
    | none =>
      { clientStatus :=
          match outcomes (retryCalls maxRetries fn - 1) with
          | .status c => c
          | .transportErr => 200
        metrics := m
        breaker := cb.recordSuccess }

/-! ## Theorems for the claims -/

/-- C10: for every id, url string and weight — whatever the outcome of
URL parsing — `backend.New` returns a backend record with
`healthy = true`, zero in-flight connections and a `Closed` breaker
with zero counters; no error is reported (the function is total into
`Backend`), and an unparseable url just leaves the URL field nil
(`none`). -/
theorem backend_new_defaults (parse : String → Option String)
    (id urlStr : String) (weight : Int) :
    (Backend.new parse id urlStr weight).IsHealthy = true ∧
    (Backend.new parse id urlStr weight).CurrentConns = 0 ∧
    (Backend.new parse id urlStr weight).circuitBreaker.state = .closed ∧
    (Backend.new parse id urlStr weight).circuitBreaker.failureCount = 0 ∧
    (Backend.new parse id urlStr weight).circuitBreaker.successCount = 0 ∧
    (Backend.new parse id urlStr weight).url = parse urlStr ∧
    (Backend.new parse id urlStr weight).id = id :=
  ⟨rfl, rfl, rfl, rfl, rfl, rfl, rfl⟩

/-- The weighted round-robin state of the concrete scenario of C7:
backends `A`, `B`, `C` with weights 1, 2, 3 inserted in that order,
all current weights at their initial 0. -/
def wrrABC : WRR :=
  { keys := ["A", "B", "C"], weights := [1, 2, 3], currentWeights := [0, 0, 0] }

/-- C7 counterexample: with always-selectable backends `A`, `B`, `C` of
weights 1, 2, 3, the six consecutive `Next` selections are not the
claimed cyclic pattern `C, B, C, A, B, C` (the third selection is `A`,
because the scan updates the maximum only on a strict increase, so the
tie at the third step goes to the earliest index). -/
theorem wrr_pattern_not_as_claimed :
    WRR.run (fun _ => true) wrrABC 6 ≠ ["C", "B", "C", "A", "B", "C"] := by
  decide

/-- C7 as amended: the six consecutive selections under smooth weighted
round-robin with weights 1, 2, 3 are exactly `C, B, A, C, B, C` —
honouring the weight counts A=1, B=2, C=3, but with the third and
fourth positions swapped relative to the claimed pattern. -/
theorem wrr_pattern_amended :
    WRR.run (fun _ => true) wrrABC 6 = ["C", "B", "A", "C", "B", "C"] ∧
    (WRR.run (fun _ => true) wrrABC 6).count "A" = 1 ∧
    (WRR.run (fun _ => true) wrrABC 6).count "B" = 2 ∧
    (WRR.run (fun _ => true) wrrABC 6).count "C" = 3 := by
  refine ⟨by decide, by decide, by decide, by decide⟩

/-- C2: the attempt closure of `Proxy.forwardRequest` never produces an
error that `retry.Do` recognises as retryable: both a transport error
and an upstream `>= 500` status produce unwrapped errors
(`isRetryableError = false`), so a single `500` response already makes
`retry.Do` return after exactly one attempt even with `MaxRetries = 3`.
This refutes the claim that transport errors and `>= 500` statuses are
classified retryable, and documents the resulting dead retry loop. -/
theorem forward_attempt_never_retryable :
    (attemptError .transportErr).map isRetryableError = some false ∧
    (attemptError (.status 500)).map isRetryableError = some false ∧
    (attemptError (.status 200)) = none ∧
    retryCalls 3 (fun _ => attemptError (.status 500)) = 1 ∧
    retryDo 3 (fun _ => attemptError (.status 500)) =
      some (.generic "backend returned error status code") ∧
    retryCalls 3 (fun _ => attemptError .transportErr) = 1 := by
  refine ⟨rfl, rfl, rfl, by decide, by decide, by decide⟩

/-- A breaker that has tripped (threshold 1) and been probed after the
reset timeout: `recordFailure` at t=0 opens it, `allowRequest` at
t=100 (past the 10ns reset timeout) flips it to `HalfOpen`. Its
`halfOpenLimit` is 1. -/
def cbHalfOpen1 : CB :=
  CB.run (CB.new { failureThreshold := 1, resetTimeout := 10, halfOpenLimit := 1 })
    [.recordFailure 0, .allow 100]

/-- C4 counterexample: a breaker in `HalfOpen` with `halfOpenLimit = 1`
admits two consecutive probes (both `allowRequest`s return `true`)
without leaving `HalfOpen` — the number of admitted probes is not
bounded by `halfOpenLimit`, because admission is gated on recorded
successes (`successCount < HalfOpenLimit`), not on outstanding
probes. -/
theorem halfopen_admits_beyond_limit :
    cbHalfOpen1.state = .halfOpen ∧
    cbHalfOpen1.config.halfOpenLimit = 1 ∧
    (cbHalfOpen1.allowRequest 101).1 = true ∧
    (cbHalfOpen1.allowRequest 101).2 = cbHalfOpen1 ∧
    ((cbHalfOpen1.allowRequest 101).2.allowRequest 102).1 = true := by
  refine ⟨by decide, rfl, by decide, by decide, by decide⟩

/-- C4 as amended: in `HalfOpen` an admission check returns `true`
exactly when `successCount < halfOpenLimit` (so at most
`halfOpenLimit` *successfully recorded* probes are required to close
the circuit), and the check itself never changes the breaker state —
hence it does not bound the number of concurrently admitted probes. -/
theorem halfopen_admission_rule (cb : CB) (now : Int)
    (h : cb.state = .halfOpen) :
    ((cb.allowRequest now).1 = true ↔ cb.successCount < cb.config.halfOpenLimit) ∧
    (cb.allowRequest now).2 = cb := by
  unfold CB.allowRequest
  rw [h]
  exact ⟨by simp, rfl⟩

/-- Witness for `halfopen_admission_rule` at the concrete half-open
breaker `cbHalfOpen1` and instant 101. -/
theorem halfopen_admission_rule_witness :
    ((cbHalfOpen1.allowRequest 101).1 = true ↔
      cbHalfOpen1.successCount < cbHalfOpen1.config.halfOpenLimit) ∧
    (cbHalfOpen1.allowRequest 101).2 = cbHalfOpen1 :=
  halfopen_admission_rule cbHalfOpen1 101 (by decide)

/-- Invariant behind C3: outside `HalfOpen` the success counter is
zero (the code never resets `successCount` on the `Open → HalfOpen`
flip, but no reachable `Open` or `Closed` state carries a non-zero
one). -/
def CBInv (cb : CB) : Prop :=
  cb.state ≠ .halfOpen → cb.successCount = 0

theorem cbInv_step (cb : CB) (op : CBOp) (h : CBInv cb) : CBInv (cb.step op) := by
  obtain ⟨cfg, st, f, s, l⟩ := cb
  cases op with
  | allow now =>
    cases st
    · exact h
    · simp only [CB.step, CB.allowRequest]
      split
      · intro hne
        exact absurd rfl hne
      · exact h
    · exact h
  | recordSuccess =>
    cases st
    · intro _
      exact h (fun hc => nomatch hc)
    · exact h
    · simp only [CB.step, CB.recordSuccess]
      split
      · intro _
        rfl
      · intro hne
        exact absurd rfl hne
  | recordFailure now =>
    cases st
    · simp only [CB.step, CB.recordFailure]
      split
      · intro _
        exact h (fun hc => nomatch hc)
      · intro _
        exact h (fun hc => nomatch hc)
    · intro _
      exact h (fun hc => nomatch hc)
    · intro _
      rfl

theorem cbInv_run (cb : CB) (ops : List CBOp) (h : CBInv cb) :
    CBInv (CB.run cb ops) := by
  induction ops generalizing cb with
  | nil => exact h
  | cons op ops ih => exact ih (cb.step op) (cbInv_step cb op h)

/-- C3: in every reachable breaker state that is `Open`, an admission
check at instant `now` with `now − lastFailureAt ≤ resetTimeout`
returns `false` and leaves the breaker unchanged; once
`now − lastFailureAt > resetTimeout`, the check returns `true`, moves
the breaker to `HalfOpen`, and that half-open breaker has
`successCount = 0`. -/
theorem open_breaker_gate (cfg : CBConfig) (ops : List CBOp) (now : Int)
    (hopen : (CB.run (CB.new cfg) ops).state = .open) :
    (now - (CB.run (CB.new cfg) ops).lastFailureTime ≤
        (CB.run (CB.new cfg) ops).config.resetTimeout →
      (CB.run (CB.new cfg) ops).allowRequest now = (false, CB.run (CB.new cfg) ops)) ∧
    ((CB.run (CB.new cfg) ops).config.resetTimeout <
        now - (CB.run (CB.new cfg) ops).lastFailureTime →
      ((CB.run (CB.new cfg) ops).allowRequest now).1 = true ∧
      ((CB.run (CB.new cfg) ops).allowRequest now).2.state = .halfOpen ∧
      ((CB.run (CB.new cfg) ops).allowRequest now).2.successCount = 0) := by
  have hinv : CBInv (CB.run (CB.new cfg) ops) :=
    cbInv_run (CB.new cfg) ops (fun _ => rfl)
  set cb := CB.run (CB.new cfg) ops with hcb
  have hsucc : cb.successCount = 0 := hinv (by rw [hopen]; exact fun hc => nomatch hc)
  constructor
  · intro hle
    simp only [CB.allowRequest, hopen]
    rw [if_neg (by omega)]
  · intro hlt
    simp only [CB.allowRequest, hopen]
    rw [if_pos (by omega)]
    exact ⟨rfl, rfl, hsucc⟩

/-- Witness for `open_breaker_gate`: threshold-1 breaker tripped at
t=5 (reset timeout 10). At t=7 the probe is rejected with the breaker
unchanged; at t=20 the probe is admitted into `HalfOpen` with
`successCount = 0`. -/
theorem open_breaker_gate_witness :
    ((CB.run (CB.new ⟨1, 10, 3⟩) [.recordFailure 5]).allowRequest 7 =
      (false, CB.run (CB.new ⟨1, 10, 3⟩) [.recordFailure 5])) ∧
    (((CB.run (CB.new ⟨1, 10, 3⟩) [.recordFailure 5]).allowRequest 20).1 = true ∧
      ((CB.run (CB.new ⟨1, 10, 3⟩) [.recordFailure 5]).allowRequest 20).2.state = .halfOpen ∧
      ((CB.run (CB.new ⟨1, 10, 3⟩) [.recordFailure 5]).allowRequest 20).2.successCount = 0) :=
  ⟨(open_breaker_gate ⟨1, 10, 3⟩ [.recordFailure 5] 7 (by decide)).1 (by decide),
    (open_breaker_gate ⟨1, 10, 3⟩ [.recordFailure 5] 20 (by decide)).2 (by decide)⟩

theorem retryLoop_calls_le (fn : Nat → Option GoError) :
    ∀ (fuel i : Nat) (last : Option GoError),
      (retryLoop fn i fuel last).2 ≤ fuel := by
  intro fuel
  induction fuel with
  | zero => intro i last; exact Nat.le_refl 0
  | succ f ih =>
    intro i last
    cases hfe : fn i with
    | none =>
      simp only [retryLoop, hfe]
      exact Nat.succ_le_succ (Nat.zero_le f)
    | some e =>
      simp only [retryLoop, hfe]
      split
      · exact Nat.succ_le_succ (ih (i + 1) (some e))
      · exact Nat.succ_le_succ (Nat.zero_le f)

theorem retryLoop_first_ok (fn : Nat → Option GoError) :
    ∀ (k fuel i : Nat) (last : Option GoError), k < fuel →
      (∀ j, j < k → ∃ e, fn (i + j) = some e ∧ isRetryableError e = true) →
      fn (i + k) = none →
      retryLoop fn i fuel last = (none, k + 1) := by
  intro k
  induction k with
  | zero =>
    intro fuel i last hk hpre hok
    obtain ⟨f, rfl⟩ := Nat.exists_eq_add_of_lt hk
    simp only [retryLoop]
    rw [show i + 0 = i from rfl] at hok
    rw [hok]
  | succ k ih =>
    intro fuel i last hk hpre hok
    obtain ⟨f, rfl⟩ := Nat.exists_eq_add_of_lt hk
    obtain ⟨e, he, hre⟩ := hpre 0 (Nat.succ_pos k)
    rw [show i + 0 = i from rfl] at he
    simp only [retryLoop, he, if_pos hre]
    have := ih (k + 1 + f) (i + 1) (some e) (by omega)
      (fun j hj => by
        have := hpre (j + 1) (by omega)
        rwa [show i + (j + 1) = i + 1 + j by omega] at this)
      (by rwa [show i + 1 + k = i + (k + 1) by omega])
    rw [this]

theorem retryLoop_terminal (fn : Nat → Option GoError) :
    ∀ (k fuel i : Nat) (last : Option GoError) (e : GoError), k < fuel →
      (∀ j, j < k → ∃ e', fn (i + j) = some e' ∧ isRetryableError e' = true) →
      fn (i + k) = some e → isRetryableError e = false →
      retryLoop fn i fuel last = (some e, k + 1) := by
  intro k
  induction k with
  | zero =>
    intro fuel i last e hk hpre he hterm
    obtain ⟨f, rfl⟩ := Nat.exists_eq_add_of_lt hk
    rw [show i + 0 = i from rfl] at he
    simp only [retryLoop, he, hterm]
    rw [if_neg (by simp)]
  | succ k ih =>
    intro fuel i last e hk hpre he hterm
    obtain ⟨f, rfl⟩ := Nat.exists_eq_add_of_lt hk
    obtain ⟨e', he', hre'⟩ := hpre 0 (Nat.succ_pos k)
    rw [show i + 0 = i from rfl] at he'
    simp only [retryLoop, he', if_pos hre']
    have := ih (k + 1 + f) (i + 1) (some e') e (by omega)
      (fun j hj => by
        have := hpre (j + 1) (by omega)
        rwa [show i + (j + 1) = i + 1 + j by omega] at this)
      (by rwa [show i + 1 + k = i + (k + 1) by omega]) hterm
    rw [this]

theorem retryLoop_all_retryable (fn : Nat → Option GoError) :
    ∀ (fuel i : Nat) (last : Option GoError), 0 < fuel →
      (∀ j, j < fuel → ∃ e, fn (i + j) = some e ∧ isRetryableError e = true) →
      retryLoop fn i fuel last = (fn (i + (fuel - 1)), fuel) := by
  intro fuel
  induction fuel with
  | zero => intro i last h; exact absurd h (Nat.lt_irrefl 0)
  | succ f ih =>
    intro i last _ hall
    obtain ⟨e, he, hre⟩ := hall 0 (Nat.succ_pos f)
    rw [show i + 0 = i from rfl] at he
    simp only [retryLoop, he, if_pos hre]
    cases f with
    | zero =>
      rw [show retryLoop fn (i + 1) 0 (some e) = (some e, 0) from rfl]
      rw [show i + (0 + 1 - 1) = i by omega, he]
    | succ f' =>
      have := ih (i + 1) (some e) (Nat.succ_pos f')
        (fun j hj => by
          have := hall (j + 1) (by omega)
          rwa [show i + (j + 1) = i + 1 + j by omega] at this)
      rw [this, show i + 1 + (f' + 1 - 1) = i + (f' + 1) by omega,
        show i + (f' + 1 + 1 - 1) = i + (f' + 1) by omega]

theorem retryFuel_eq (m : Nat) : ((m : Int) + 1).toNat = m + 1 := by
  omega

/-- C6: the retry executor calls the attempt function at most
`maxRetries + 1` times; if the first `k` attempts fail retryably
(`k ≤ maxRetries`) then an `ok` at attempt `k` makes it return success
after exactly `k+1` calls, a terminal failure at attempt `k` makes it
return that failure after exactly `k+1` calls, and if all
`maxRetries + 1` attempts fail retryably it returns the last retryable
failure after exactly `maxRetries + 1` calls. -/
theorem retry_do_contract (m : Nat) (fn : Nat → Option GoError) :
    retryCalls (m : Int) fn ≤ m + 1 ∧
    (∀ k, k ≤ m →
      (∀ j, j < k → ∃ e, fn j = some e ∧ isRetryableError e = true) →
      (fn k = none →
        retryDo (m : Int) fn = none ∧ retryCalls (m : Int) fn = k + 1) ∧
      (∀ e, fn k = some e → isRetryableError e = false →
        retryDo (m : Int) fn = some e ∧ retryCalls (m : Int) fn = k + 1)) ∧
    ((∀ j, j ≤ m → ∃ e, fn j = some e ∧ isRetryableError e = true) →
      retryDo (m : Int) fn = fn m ∧ retryCalls (m : Int) fn = m + 1) := by
  refine ⟨?_, ?_, ?_⟩
  · simpa only [retryCalls, retryFuel_eq] using
      retryLoop_calls_le fn (m + 1) 0 none
  · intro k hk hpre
    constructor
    · intro hok
      have := retryLoop_first_ok fn k (m + 1) 0 none (by omega)
        (fun j hj => by simpa using hpre j hj) (by simpa using hok)
      constructor
      · simp only [retryDo, retryFuel_eq, this]
      · simp only [retryCalls, retryFuel_eq, this]
    · intro e he hterm
      have := retryLoop_terminal fn k (m + 1) 0 none e (by omega)
        (fun j hj => by simpa using hpre j hj) (by simpa using he) hterm
      constructor
      · simp only [retryDo, retryFuel_eq, this]
      · simp only [retryCalls, retryFuel_eq, this]
  · intro hall
    have := retryLoop_all_retryable fn (m + 1) 0 none (Nat.succ_pos m)
      (fun j hj => by simpa using hall j (by omega))
    constructor
    · simp only [retryDo, retryFuel_eq, this]
      congr 1
      omega
    · simp only [retryCalls, retryFuel_eq, this]

/-- The attempt function of the C6 witness: the first attempt fails
retryably, the second succeeds. -/
def fnRetryOnce : Nat → Option GoError :=
  fun i => if i = 0 then some (.retryable (.generic "dial tcp refused")) else none

/-- Witness for `retry_do_contract`: with `maxRetries = 1` and an
attempt function that fails retryably once then succeeds, the executor
returns success after exactly two calls. -/
theorem retry_do_contract_witness :
    retryDo (1 : Int) fnRetryOnce = none ∧ retryCalls (1 : Int) fnRetryOnce = 2 :=
  ((retry_do_contract 1 fnRetryOnce).2.1 1 (by decide)
    (fun j hj => ⟨.retryable (.generic "dial tcp refused"),
      by rw [show j = 0 by omega]; exact ⟨rfl, rfl⟩⟩)).1 rfl

theorem nextInterval_eq (cfg : RetryConfig) (p v : ℚ) :
    nextInterval cfg p v =
      min cfg.maxInterval (p * cfg.multiplier) * (1 + v * cfg.randomization) := by
  simp only [nextInterval]
  rcases le_or_lt (p * cfg.multiplier) cfg.maxInterval with h | h
  · rw [if_neg (not_lt.mpr h), min_eq_right h]
    ring
  · rw [if_pos h, min_eq_left h.le]
    ring

theorem min_clamp_mul_le (M X c : ℚ) (hM : 0 ≤ M) (hc : 1 ≤ c) :
    min M (X * c) ≤ min M X * c := by
  rcases le_total X M with h | h
  · rw [min_eq_right h]
    exact min_le_right _ _
  · rw [min_eq_left h]
    calc min M (X * c) ≤ M := min_le_left _ _
    _ ≤ M * c := le_mul_of_one_le_right hM hc

theorem min_clamp_absorb (M X m : ℚ) (hM : 0 ≤ M) (hm : 1 ≤ m) :
    min M (min M X * m) = min M (X * m) := by
  rcases le_total X M with h | h
  · rw [min_eq_right h]
  · rw [min_eq_left h]
    have h1 : M ≤ M * m := le_mul_of_one_le_right hM hm
    have h2 : M * m ≤ X * m :=
      mul_le_mul_of_nonneg_right h (le_trans zero_le_one hm)
    rw [min_eq_left h1, min_eq_left (h1.trans h2)]

theorem intervalSeq_pos (cfg : RetryConfig) (u : Nat → ℚ)
    (h0 : 0 < cfg.initialInterval) (him : cfg.initialInterval ≤ cfg.maxInterval)
    (hm : 1 ≤ cfg.multiplier) (hr : 0 ≤ cfg.randomization)
    (hu : ∀ k, 0 ≤ u k) : ∀ k, 0 < intervalSeq cfg u k := by
  intro k
  induction k with
  | zero => exact h0
  | succ k ih =>
    have hfac : (0 : ℚ) < 1 + u k * cfg.randomization := by
      have := mul_nonneg (hu k) hr
      linarith
    have hmin : 0 < min cfg.maxInterval (intervalSeq cfg u k * cfg.multiplier) :=
      lt_min (lt_of_lt_of_le h0 him)
        (lt_of_lt_of_le ih (le_mul_of_one_le_right ih.le hm))
    rw [show intervalSeq cfg u (k + 1) =
        nextInterval cfg (intervalSeq cfg u k) (u k) from rfl, nextInterval_eq]
    exact mul_pos hmin hfac

/-- C5 counterexample: with `initialInterval = 100`,
`maxInterval = 10000`, `multiplier = 2` and zero randomization, the
first backoff sleep is 200 — the loop multiplies the interval by the
multiplier *before* the first sleep — while the spec's
`b_1 = min(maxInterval, initialInterval · multiplier^0) = 100`, so the
sleep lies outside the claimed interval `[b_1, b_1·(1+r)] = [100, 100]`. -/
theorem backoff_first_sleep_exceeds_spec :
    intervalSeq ⟨100, 10000, 2, 0⟩ (fun _ => 0) 1 = 200 ∧
    specBackoffBase ⟨100, 10000, 2, 0⟩ 1 = 100 ∧
    ¬(specBackoffBase ⟨100, 10000, 2, 0⟩ 1 ≤
        intervalSeq ⟨100, 10000, 2, 0⟩ (fun _ => 0) 1 ∧
      intervalSeq ⟨100, 10000, 2, 0⟩ (fun _ => 0) 1 ≤
        specBackoffBase ⟨100, 10000, 2, 0⟩ 1 *
          (1 + RetryConfig.randomization ⟨100, 10000, 2, 0⟩)) := by
  refine ⟨?_, ?_, ?_⟩ <;>
    norm_num [intervalSeq, nextInterval, specBackoffBase]

/-- C5 as amended: the `k`-th backoff sleep lies in
`[b'_k, b'_k·(1+r)^k]` with `b'_k = min(maxInterval,
initialInterval·multiplier^k)` — the exponent is `k`, not `k−1`
(the interval is multiplied before the first sleep), and the jitter
factor compounds across sleeps because the jittered value is carried
into the next iteration. -/
theorem backoff_bounds (cfg : RetryConfig) (u : Nat → ℚ)
    (h0 : 0 < cfg.initialInterval) (him : cfg.initialInterval ≤ cfg.maxInterval)
    (hm : 1 ≤ cfg.multiplier) (hr : 0 ≤ cfg.randomization)
    (hu : ∀ k, 0 ≤ u k ∧ u k ≤ 1) (k : Nat) :
    codeBackoffBase cfg k ≤ intervalSeq cfg u k ∧
    intervalSeq cfg u k ≤ codeBackoffBase cfg k * (1 + cfg.randomization) ^ k := by
  have hM : (0 : ℚ) ≤ cfg.maxInterval := (lt_of_lt_of_le h0 him).le
  have hm0 : (0 : ℚ) ≤ cfg.multiplier := le_trans zero_le_one hm
  induction k with
  | zero =>
    constructor
    · rw [codeBackoffBase, pow_zero, mul_one, min_eq_right him]
      exact le_refl _
    · rw [codeBackoffBase, pow_zero, pow_zero, mul_one, mul_one, min_eq_right him]
      exact le_refl _
  | succ k ih =>
    obtain ⟨ihl, ihr⟩ := ih
    have hpos := intervalSeq_pos cfg u h0 him hm hr (fun j => (hu j).1)
    have hseq : intervalSeq cfg u (k + 1) =
        min cfg.maxInterval (intervalSeq cfg u k * cfg.multiplier) *
          (1 + u k * cfg.randomization) := by
      rw [show intervalSeq cfg u (k + 1) =
        nextInterval cfg (intervalSeq cfg u k) (u k) from rfl, nextInterval_eq]
    have hfac1 : (1 : ℚ) ≤ 1 + u k * cfg.randomization := by
      have := mul_nonneg (hu k).1 hr
      linarith
    have hfacr : 1 + u k * cfg.randomization ≤ 1 + cfg.randomization := by
      have : u k * cfg.randomization ≤ 1 * cfg.randomization :=
        mul_le_mul_of_nonneg_right (hu k).2 hr
      linarith
    have habsorb : min cfg.maxInterval (codeBackoffBase cfg k * cfg.multiplier) =
        codeBackoffBase cfg (k + 1) := by
      rw [codeBackoffBase, codeBackoffBase, min_clamp_absorb _ _ _ hM hm,
        mul_assoc, pow_succ]
    have hminpos : 0 < min cfg.maxInterval (intervalSeq cfg u k * cfg.multiplier) :=
      lt_min (lt_of_lt_of_le h0 him)
        (lt_of_lt_of_le (hpos k) (le_mul_of_one_le_right (hpos k).le hm))
    constructor
    · have step1 : codeBackoffBase cfg (k + 1) ≤
          min cfg.maxInterval (intervalSeq cfg u k * cfg.multiplier) := by
        rw [← habsorb]
        exact min_le_min (le_refl _) (mul_le_mul_of_nonneg_right ihl hm0)
      calc codeBackoffBase cfg (k + 1)
          ≤ min cfg.maxInterval (intervalSeq cfg u k * cfg.multiplier) := step1
        _ ≤ min cfg.maxInterval (intervalSeq cfg u k * cfg.multiplier) *
              (1 + u k * cfg.randomization) :=
            le_mul_of_one_le_right hminpos.le hfac1
        _ = intervalSeq cfg u (k + 1) := hseq.symm
    · have hc : (1 : ℚ) ≤ (1 + cfg.randomization) ^ k := by
        have := pow_le_pow_left₀ (by linarith : (0 : ℚ) ≤ 1)
          (by linarith : (1 : ℚ) ≤ 1 + cfg.randomization) k
        simpa using this
      have hB1 : (0 : ℚ) ≤ codeBackoffBase cfg (k + 1) :=
        le_min hM (by positivity)
      calc intervalSeq cfg u (k + 1)
          = min cfg.maxInterval (intervalSeq cfg u k * cfg.multiplier) *
              (1 + u k * cfg.randomization) := hseq
        _ ≤ codeBackoffBase cfg (k + 1) * (1 + cfg.randomization) ^ k *
              (1 + u k * cfg.randomization) := by
            apply mul_le_mul_of_nonneg_right _ (by linarith)
            calc min cfg.maxInterval (intervalSeq cfg u k * cfg.multiplier)
                ≤ min cfg.maxInterval
                    (codeBackoffBase cfg k * (1 + cfg.randomization) ^ k *
                      cfg.multiplier) :=
                  min_le_min (le_refl _) (mul_le_mul_of_nonneg_right ihr hm0)
              _ = min cfg.maxInterval
                    (codeBackoffBase cfg k * cfg.multiplier *
                      (1 + cfg.randomization) ^ k) := by
                  congr 1
                  ring
              _ ≤ min cfg.maxInterval (codeBackoffBase cfg k * cfg.multiplier) *
                    (1 + cfg.randomization) ^ k :=
                  min_clamp_mul_le _ _ _ hM hc
              _ = codeBackoffBase cfg (k + 1) * (1 + cfg.randomization) ^ k := by
                  rw [habsorb]
        _ ≤ codeBackoffBase cfg (k + 1) * (1 + cfg.randomization) ^ k *
              (1 + cfg.randomization) :=
            mul_le_mul_of_nonneg_left hfacr (mul_nonneg hB1 (by positivity))
        _ = codeBackoffBase cfg (k + 1) * (1 + cfg.randomization) ^ (k + 1) := by
            rw [pow_succ]
            ring

/-- Witness for `backoff_bounds`: `initialInterval = 100`,
`maxInterval = 10000`, `multiplier = 2`, `randomization = 1/10`, all
jitter draws `1/2`, second backoff. -/
theorem backoff_bounds_witness :
    codeBackoffBase ⟨100, 10000, 2, 1/10⟩ 2 ≤
      intervalSeq ⟨100, 10000, 2, 1/10⟩ (fun _ => 1/2) 2 ∧
    intervalSeq ⟨100, 10000, 2, 1/10⟩ (fun _ => 1/2) 2 ≤
      codeBackoffBase ⟨100, 10000, 2, 1/10⟩ 2 *
        (1 + RetryConfig.randomization ⟨100, 10000, 2, 1/10⟩) ^ 2 :=
  backoff_bounds ⟨100, 10000, 2, 1/10⟩ (fun _ => 1/2) (by norm_num) (by norm_num)
    (by norm_num) (by norm_num) (fun _ => ⟨by norm_num, by norm_num⟩) 2

/-- Replace every stored backend record, keeping keys and cursor; used
to state that round-robin `Next`'s choice ignores the stored records
(in particular health flags and breaker states). -/
def RoundRobin.mapBackends (rb : RoundRobin) (f : Backend → Backend) : RoundRobin :=
  { rb with backends := rb.backends.map (fun e => (e.1, f e.2)) }

theorem lookup_map_snd (l : List (String × Backend)) (f : Backend → Backend)
    (k : String) :
    (l.map (fun e => (e.1, f e.2))).lookup k = (l.lookup k).map f := by
  induction l with
  | nil => rfl
  | cons e l ih =>
    by_cases h : k = e.1
    · simp [List.lookup, h]
    · simp only [List.lookup, List.map_cons]
      rw [show (k == e.1) = false from beq_eq_false_iff_ne.mpr h]
      exact ih

/-- An unhealthy backend with a `Closed` (admitting) breaker. -/
def bUnhealthy : Backend :=
  { Backend.new (fun _ => none) "a" "http://a" 1 with IsHealthy := false }

/-- A round-robin balancer holding only `bUnhealthy`. -/
def rrUnhealthy : RoundRobin :=
  { backends := [("a", bUnhealthy)], current := 0, keys := ["a"] }

/-- C1 counterexample: round-robin `Next` on a registry whose only
backend has `healthy = false` still returns that backend (its breaker
even admits, so health alone is ignored): `Next` performs no
selectability check at all. -/
theorem rr_next_returns_unhealthy_backend :
    RoundRobin.next rrUnhealthy = .ok (some bUnhealthy, rrUnhealthy) ∧
    bUnhealthy.IsHealthy = false ∧
    (bUnhealthy.circuitBreaker.allowRequest 0).1 = true :=
  ⟨rfl, rfl, rfl⟩

/-- C1 as amended: on a non-empty registry, round-robin `Next` returns
(without error) the backend stored under the cursor's key and advances
the cursor by one modulo the key-list length; it consults neither
health flags nor breakers — replacing every stored record through any
function `f` changes the selection to the `f`-image but never the
selected key, the cursor movement, or success. -/
theorem rr_next_cursor_only (rb : RoundRobin) (hne : rb.backends ≠ []) :
    RoundRobin.next rb =
      .ok (rb.backends.lookup (rb.keys.getD rb.current ""),
        { rb with current := (rb.current + 1) % rb.keys.length }) ∧
    ∀ f : Backend → Backend,
      RoundRobin.next (rb.mapBackends f) =
        .ok ((rb.backends.lookup (rb.keys.getD rb.current "")).map f,
          { rb.mapBackends f with current := (rb.current + 1) % rb.keys.length }) := by
  have hlen : rb.backends.length ≠ 0 := by
    simpa [List.length_eq_zero] using hne
  constructor
  · unfold RoundRobin.next
    rw [if_neg hlen]
  · intro f
    unfold RoundRobin.next RoundRobin.mapBackends
    simp only [List.length_map]
    rw [if_neg hlen]
    simp [lookup_map_snd]

/-- Witness for `rr_next_cursor_only` at the concrete one-backend
registry `rrUnhealthy`, with `f` restoring health. -/
theorem rr_next_cursor_only_witness :
    RoundRobin.next rrUnhealthy =
      .ok (rrUnhealthy.backends.lookup (rrUnhealthy.keys.getD rrUnhealthy.current ""),
        { rrUnhealthy with
            current := (rrUnhealthy.current + 1) % rrUnhealthy.keys.length }) ∧
    RoundRobin.next (rrUnhealthy.mapBackends (fun b => { b with IsHealthy := true })) =
      .ok ((rrUnhealthy.backends.lookup
            (rrUnhealthy.keys.getD rrUnhealthy.current "")).map
              (fun b => { b with IsHealthy := true }),
        { rrUnhealthy.mapBackends (fun b => { b with IsHealthy := true }) with
            current := (rrUnhealthy.current + 1) % rrUnhealthy.keys.length }) :=
  ⟨(rr_next_cursor_only rrUnhealthy (by simp [rrUnhealthy])).1,
    (rr_next_cursor_only rrUnhealthy (by simp [rrUnhealthy])).2
      (fun b => { b with IsHealthy := true })⟩

/-- C9: the code's behaviour at the failing input — every upstream
attempt returns status 500 with `MaxRetries = 3` on a fresh breaker and
fresh metrics. Exactly one breaker failure is recorded and
`backend_failures` is incremented (as the claim says), but the client
receives `500 Internal Server Error` — not 502 — because
`forwardRequest` returns the raw attempt error and never the
`ErrBackendUnavailable`/`ErrBackendError` sentinels the `switch`
compares against, and `failed_requests` is not incremented at all on
this path. -/
theorem forward_failure_responds_500 :
    (serveHTTP 3 (fun _ => .status 500) (.ok "b1")
        (CB.new ⟨5, 30000000000, 3⟩) Metrics.new 0).clientStatus = 500 ∧
    (serveHTTP 3 (fun _ => .status 500) (.ok "b1")
        (CB.new ⟨5, 30000000000, 3⟩) Metrics.new 0).metrics.failedRequests = 0 ∧
    (serveHTTP 3 (fun _ => .status 500) (.ok "b1")
        (CB.new ⟨5, 30000000000, 3⟩) Metrics.new 0).metrics.totalRequests = 1 ∧
    (serveHTTP 3 (fun _ => .status 500) (.ok "b1")
        (CB.new ⟨5, 30000000000, 3⟩) Metrics.new 0).metrics.backendFailures "b1" = 1 ∧
    (serveHTTP 3 (fun _ => .status 500) (.ok "b1")
        (CB.new ⟨5, 30000000000, 3⟩) Metrics.new 0).breaker.failureCount = 1 ∧
    (serveHTTP 3 (fun _ => .status 500) (.ok "b1")
        (CB.new ⟨5, 30000000000, 3⟩) Metrics.new 0).breaker.state = .closed := by
  refine ⟨rfl, rfl, rfl, ?_, rfl, rfl⟩
  simp [serveHTTP, retryDo, retryLoop, attemptError, isRetryableError, Metrics.new]

theorem evictScan_go (l : List (String × Session)) :
    ∀ acc : String × Int, acc.1 ≠ "" → (∀ e ∈ l, e.1 ≠ "") →
      (l.foldl (fun acc e =>
          if acc.1 = "" ∨ e.2.expiresAt < acc.2 then (e.1, e.2.expiresAt) else acc)
        acc).1 ≠ "" ∧
      ((l.foldl (fun acc e =>
          if acc.1 = "" ∨ e.2.expiresAt < acc.2 then (e.1, e.2.expiresAt) else acc)
        acc) = acc ∨
        ∃ s, ((l.foldl (fun acc e =>
          if acc.1 = "" ∨ e.2.expiresAt < acc.2 then (e.1, e.2.expiresAt) else acc)
          acc).1, s) ∈ l ∧
          s.expiresAt = (l.foldl (fun acc e =>
            if acc.1 = "" ∨ e.2.expiresAt < acc.2 then (e.1, e.2.expiresAt) else acc)
            acc).2) ∧
      (l.foldl (fun acc e =>
          if acc.1 = "" ∨ e.2.expiresAt < acc.2 then (e.1, e.2.expiresAt) else acc)
        acc).2 ≤ acc.2 ∧
      (∀ e ∈ l, (l.foldl (fun acc e =>
          if acc.1 = "" ∨ e.2.expiresAt < acc.2 then (e.1, e.2.expiresAt) else acc)
        acc).2 ≤ e.2.expiresAt) := by
  induction l with
  | nil =>
    intro acc hacc _
    exact ⟨hacc, Or.inl rfl, le_refl _, fun e he => absurd he (List.not_mem_nil e)⟩
  | cons e l ih =>
    intro acc hacc hkeys
    have hke : e.1 ≠ "" := hkeys e (List.mem_cons_self e l)
    have hkl : ∀ e' ∈ l, e'.1 ≠ "" := fun e' he' => hkeys e' (List.mem_cons_of_mem e he')
    simp only [List.foldl_cons]
    by_cases hlt : e.2.expiresAt < acc.2
    · rw [if_pos (Or.inr hlt)]
      obtain ⟨h1, h2, h3, h4⟩ := ih (e.1, e.2.expiresAt) hke hkl
      refine ⟨h1, ?_, ?_, ?_⟩
      · rcases h2 with h2 | ⟨s, hs, hse⟩
        · exact Or.inr ⟨e.2, by rw [h2]; exact ⟨List.mem_cons_self e l, rfl⟩⟩
        · exact Or.inr ⟨s, List.mem_cons_of_mem e hs, hse⟩
      · exact le_trans h3 (le_of_lt hlt)
      · intro e' he'
        rcases List.mem_cons.mp he' with rfl | he'
        · exact h3
        · exact h4 e' he'
    · rw [if_neg (by
        intro hc
        rcases hc with hc | hc
        · exact hacc hc
        · exact hlt hc)]
      obtain ⟨h1, h2, h3, h4⟩ := ih acc hacc hkl
      refine ⟨h1, ?_, h3, ?_⟩
      · rcases h2 with h2 | ⟨s, hs, hse⟩
        · exact Or.inl h2
        · exact Or.inr ⟨s, List.mem_cons_of_mem e hs, hse⟩
      · intro e' he'
        rcases List.mem_cons.mp he' with rfl | he'
        · exact le_trans h3 (not_lt.mp hlt)
        · exact h4 e' he'

theorem evictScan_spec (store : SessionStore) (hne : store ≠ [])
    (hkeys : ∀ e ∈ store, e.1 ≠ "") :
    (evictScan store).1 ≠ "" ∧
    (∃ s, ((evictScan store).1, s) ∈ store ∧ s.expiresAt = (evictScan store).2) ∧
    (∀ e ∈ store, (evictScan store).2 ≤ e.2.expiresAt) := by
  obtain ⟨e, l, rfl⟩ := List.exists_cons_of_ne_nil hne
  have hke : e.1 ≠ "" := hkeys e (List.mem_cons_self e l)
  have hkl : ∀ e' ∈ l, e'.1 ≠ "" := fun e' he' => hkeys e' (List.mem_cons_of_mem e he')
  have hstep : evictScan (e :: l) =
      l.foldl (fun acc e =>
        if acc.1 = "" ∨ e.2.expiresAt < acc.2 then (e.1, e.2.expiresAt) else acc)
        (e.1, e.2.expiresAt) := by
    simp [evictScan]
  obtain ⟨h1, h2, h3, h4⟩ := evictScan_go l (e.1, e.2.expiresAt) hke hkl
  rw [hstep]
  refine ⟨h1, ?_, ?_⟩
  · rcases h2 with h2 | ⟨s, hs, hse⟩
    · exact ⟨e.2, by rw [h2]; exact ⟨List.mem_cons_self e l, rfl⟩⟩
    · exact ⟨s, List.mem_cons_of_mem e hs, hse⟩
  · intro e' he'
    rcases List.mem_cons.mp he' with rfl | he'
    · exact h3
    · exact h4 e' he'

theorem evictOldest_spec (store : SessionStore) (hne : store ≠ [])
    (hkeys : ∀ e ∈ store, e.1 ≠ "") :
    ∃ k s, (k, s) ∈ store ∧ (∀ e ∈ store, s.expiresAt ≤ e.2.expiresAt) ∧
      evictOldestSession store = store.eraseP (fun e => e.1 = k) ∧
      (evictOldestSession store).length + 1 = store.length := by
  obtain ⟨h1, ⟨s, hs, hse⟩, hmin⟩ := evictScan_spec store hne hkeys
  refine ⟨(evictScan store).1, s, hs, ?_, ?_, ?_⟩
  · intro e he
    rw [hse]
    exact hmin e he
  · simp [evictOldestSession, h1]
  · have herase : evictOldestSession store =
        store.eraseP (fun e => e.1 = (evictScan store).1) := by
      simp [evictOldestSession, h1]
    rw [herase]
    exact List.length_eraseP_add_one hs (by simp)

theorem storeSet_lookup_self (store : SessionStore) (k : String) (v : Session) :
    (storeSet store k v).lookup k = some v := by
  unfold storeSet
  split
  case isTrue hsome =>
    induction store with
    | nil => simp at hsome
    | cons e l ih =>
      simp only [List.map_cons]
      by_cases h : e.1 = k
      · rw [if_pos h]
        simp [List.lookup]
      · rw [if_neg h]
        have hk : (k == e.1) = false := beq_eq_false_iff_ne.mpr (Ne.symm h)
        simp only [List.lookup, hk]
        apply ih
        simpa [List.lookup, hk] using hsome
  case isFalse hnone =>
    induction store with
    | nil => simp [List.lookup]
    | cons e l ih =>
      have hk : (k == e.1) = false := by
        by_contra hc
        rw [Bool.not_eq_false, beq_iff_eq] at hc
        simp [List.lookup, hc] at hnone
      simp only [List.cons_append, List.lookup, hk]
      apply ih
      simpa [List.lookup, hk] using hnone

theorem storeSet_length_le (store : SessionStore) (k : String) (v : Session) :
    (storeSet store k v).length ≤ store.length + 1 := by
  unfold storeSet
  split
  · simp
  · simp

/-- C8: whenever `SetBackendID` runs with session handling enabled, a
non-empty key and backend id, capacity `maxSessions ≥ 1`, and a store
currently within capacity: the new entry is written with
`expiresAt = now + TTL`; the store stays within `maxSessions`; and when
the store was at (or beyond) capacity, the eviction step removes exactly
one entry and that entry has the earliest `expiresAt` in the store. -/
theorem session_set_capacity (cfg : SessionConfig) (store : SessionStore)
    (key bid : String) (now : Int)
    (hen : cfg.enabled = true) (hbid : bid ≠ "") (hkey : key ≠ "")
    (hmax : 1 ≤ cfg.maxSessions)
    (hlen : (store.length : Int) ≤ cfg.maxSessions)
    (hkeys : ∀ e ∈ store, e.1 ≠ "") :
    (setBackendID cfg store key bid now).lookup key =
      some { backendID := bid, expiresAt := now + cfg.ttl } ∧
    ((setBackendID cfg store key bid now).length : Int) ≤ cfg.maxSessions ∧
    (cfg.maxSessions ≤ (store.length : Int) →
      ∃ k s, (k, s) ∈ store ∧ (∀ e ∈ store, s.expiresAt ≤ e.2.expiresAt) ∧
        evictOldestSession store = store.eraseP (fun e => e.1 = k) ∧
        (evictOldestSession store).length + 1 = store.length) := by
  have hset : setBackendID cfg store key bid now =
      storeSet (if (store.length : Int) ≥ cfg.maxSessions
                then evictOldestSession store else store)
        key { backendID := bid, expiresAt := now + cfg.ttl } := by
    unfold setBackendID
    rw [if_neg (by simp [hen, hbid]), if_neg hkey]
  refine ⟨?_, ?_, ?_⟩
  · rw [hset]
    exact storeSet_lookup_self _ _ _
  · rw [hset]
    by_cases hcap : (store.length : Int) ≥ cfg.maxSessions
    · have hnil : store ≠ [] := by
        intro hc
        rw [hc] at hcap
        simp at hcap
        omega
      obtain ⟨k, s, _, _, _, hlen1⟩ := evictOldest_spec store hnil hkeys
      rw [if_pos hcap]
      have := storeSet_length_le (evictOldestSession store) key
        { backendID := bid, expiresAt := now + cfg.ttl }
      omega
    · rw [if_neg hcap]
      have := storeSet_length_le store key
        { backendID := bid, expiresAt := now + cfg.ttl }
      push_neg at hcap
      omega
  · intro hcap
    have hnil : store ≠ [] := by
      intro hc
      rw [hc] at hcap
      simp at hcap
      omega
    exact evictOldest_spec store hnil hkeys

/-- Witness for `session_set_capacity`: a full store of two entries
(capacity 2); remembering a third key evicts the earliest-expiring
entry and writes the new entry at `now + TTL = 107`. -/
theorem session_set_capacity_witness :
    (setBackendID ⟨true, 100, 2⟩
        [("k1", ⟨"b1", 50⟩), ("k2", ⟨"b2", 40⟩)] "k3" "b9" 7).lookup "k3" =
      some { backendID := "b9", expiresAt := 107 } ∧
    ((setBackendID ⟨true, 100, 2⟩
        [("k1", ⟨"b1", 50⟩), ("k2", ⟨"b2", 40⟩)] "k3" "b9" 7).length : Int) ≤ 2 :=
  ⟨(session_set_capacity ⟨true, 100, 2⟩
      [("k1", ⟨"b1", 50⟩), ("k2", ⟨"b2", 40⟩)] "k3" "b9" 7
      rfl (by decide) (by decide) (by decide) (by decide) (by decide)).1,
    (session_set_capacity ⟨true, 100, 2⟩
      [("k1", ⟨"b1", 50⟩), ("k2", ⟨"b2", 40⟩)] "k3" "b9" 7
      rfl (by decide) (by decide) (by decide) (by decide) (by decide)).2.1⟩

end LoadBalancer
